import Mathlib

/-!
A shallow embedding of the task-chain splitting-size and chain-conversion policy
engine of WmAgentScripts (TaskChainWorkloadHandler together with the step-chain
handler), and theorems checking the specification's claims against it.

Python numbers are modelled as exact rationals, dictionaries as structures with
optional fields (a `none` field stands for an absent key), in-place mutation of
the splitting entries as explicit state passing, and exceptions as an explicit
error type.  External collaborators (configuration source, dataset metadata
source, base-class accessors) are modelled at their interfaces as fields of the
handler state.
-/

namespace WmAgent

/-- Python truthiness of an optional number: None and 0 are falsy. -/
def truthy : Option ℚ → Bool
  | none => false
  | some q => q != 0

/-- Python `a or b` on optional numbers: keeps `a` when truthy, else yields `b`. -/
def pyOr (a b : Option ℚ) : Option ℚ :=
  if truthy a then a else b

/-- Python `int(q)`: truncation toward zero. -/
def pyInt (q : ℚ) : ℤ :=
  if q < 0 then -(⌊-q⌋) else ⌊q⌋

/-- Python `min` over a list of numbers with a default for the empty list. -/
def minD (l : List ℚ) (d : ℚ) : ℚ :=
  match l with
  | [] => d
  | x :: xs => xs.foldl min x

/-- Whether the first character list starts the second one. -/
def leads : List Char → List Char → Bool
  | [], _ => true
  | _ :: _, [] => false
  | a :: as, b :: bs => a == b && leads as bs

/-- Whether the first character list occurs inside the second one. -/
def containsChars (needle : List Char) : List Char → Bool
  | [] => needle.isEmpty
  | c :: cs => leads needle (c :: cs) || containsChars needle cs

/-- Python `needle in hay` for strings. -/
def strContains (needle hay : String) : Bool :=
  containsChars needle.data hay.data

/-- Python `s.split(sep)` for a one-character separator, over character lists. -/
def splitOnChar (sep : Char) : List Char → List (List Char)
  | [] => [[]]
  | c :: cs =>
    match splitOnChar sep cs with
    | [] => [[]]
    | g :: gs => if c = sep then [] :: g :: gs else (c :: g) :: gs

/-- Python `name.split("/")[-1]`. -/
def lastComponent (s : String) : String :=
  ⟨(splitOnChar '/' s.data).getLastD []⟩

/-- Python `s[:n]`: the first n characters. -/
def strTake (s : String) (n : ℕ) : String :=
  ⟨s.data.take n⟩

/-- Python exceptions the handler's computations can raise (`checkSplitting` and
`isGoodToConvertToStepChain` swallow them with a blanket `except` and fall off
returning None to the caller). -/
inductive Err where
  | keyError
  | typeError
  | recursionOverflow
  | zeroDivisionError
  | indexError
  deriving DecidableEq, Repr

/-- The fields of one task sub-schema (the dict stored at a `Task<i>` key of the
chain schema) read by the handler.  A `none` field models an absent key; the
empty dict returned by `_getTaskSchema` on a failed lookup is the schema with
every field absent (its TaskName, never read in that case, defaults to ""). -/
structure TaskSchema where
  taskName : String := ""
  timePerEvent : Option ℚ := none
  sizePerEvent : Option ℚ := none
  filterEfficiency : Option ℚ := none
  inputTask : Option String := none
  inputDataset : Option String := none
  eventStreams : Option ℚ := none
  multicore : Option ℚ := none
  events_per_job : Option ℚ := none
  deriving DecidableEq, Repr

/-- The string-valued dict lookup `schema.get(key)` performed at the call
`dbsReader.getDatasetEventsPerLumi(schema.get(inputDataset))` in
`checkSplitting`: a dataset name can only hit a string-valued key of the task
dict, every other key yields None. -/
def TaskSchema.strGet (s : TaskSchema) (key : String) : Option String :=
  if key = "TaskName" then some s.taskName
  else if key = "InputTask" then s.inputTask
  else if key = "InputDataset" then s.inputDataset
  else none

/-- The `splitParams` sub-dict fields read or written by the validator. -/
structure SplitParams where
  events_per_job : Option ℚ := none
  events_per_lumi : Option ℚ := none
  deriving DecidableEq, Repr

/-- One splitting entry of the list passed to `checkSplitting`. -/
structure Splitting where
  taskName : String
  splitParams : Option SplitParams := none
  deriving DecidableEq, Repr

/-- The handler state: the chain-schema fields and the collaborator interfaces
that the policy engine consumes. -/
structure Handler where
  /-- the `Task<i>` sub-schemas of the chain schema, in iteration order -/
  tasks : List TaskSchema := []
  /-- configuration threshold GB_space_limit -/
  gbSpaceLimit : ℚ := 0
  /-- configuration threshold min_events_per_lumi_output -/
  minEventsPerLumiOutput : ℚ := 0
  /-- configuration threshold max_nCores_for_stepchain -/
  maxNCoresForStepChain : ℚ := 0
  /-- configuration threshold efficiency_threshold_for_stepchain -/
  efficiencyThresholdForStepChain : ℚ := 0
  /-- configuration output_size_correction: ordered keyword-to-factor table -/
  outputSizeCorrection : List (String × ℚ) := []
  /-- the primary input datasets returned by getIO -/
  primaries : List String := []
  /-- result of isRelVal -/
  relVal : Bool := false
  /-- collaborator dbsReader.getDatasetEventsPerLumi, applied to the value of
  the dict lookup performed on the task schema -/
  getDatasetEventsPerLumi : Option String → Option ℚ := fun _ => none
  /-- chain-level field TaskChain (the number of tasks) -/
  taskChain : Option ℤ := none
  /-- chain-level field OutputDatasets -/
  outputDatasets : List String := []
  /-- result of getParamList applied to ScramArch -/
  scramArch : List String := []
  /-- result of getMulticore with maxOnly False -/
  multicores : List ℚ := []
  /-- chain-level field Multicore -/
  chainMulticore : Option ℚ := none
  /-- result of getProcessingString: key-value pairs -/
  processingStrings : List (String × String) := []
  /-- the workflow name -/
  wf : String := ""

/-- `_getTaskSchema`: the first task sub-schema whose TaskName matches, else an
empty dict.  The source's deep copy is value copying in this pure model; the aliasing
content of the copy is modelled separately in the heap model below. -/
def getTaskSchema (h : Handler) (task : String) : TaskSchema :=
  match h.tasks.find? (fun s => s.taskName == task) with
  | some s => s
  | none => {}

/-- `_getTaskEfficiencyFactor`, with explicit fuel standing for the recursion
depth; `none` models the unbounded recursion on a cyclic InputTask chain. -/
def getTaskEfficiencyFactorAux (h : Handler) : ℕ → TaskSchema → ℚ → Option ℚ
  | 0, _, _ => none
  | n + 1, schema, efficiencyFactor =>
    match schema.inputTask with
    | some it =>
      let dataset := getTaskSchema h it
      getTaskEfficiencyFactorAux h n dataset (efficiencyFactor * dataset.filterEfficiency.getD 1)
    | none => some efficiencyFactor

/-- `_getTaskEfficiencyFactor(schema)` with the default starting factor 1.0; the
fuel covers every acyclic chain over the handler's task list. -/
def getTaskEfficiencyFactor (h : Handler) (schema : TaskSchema) : Option ℚ :=
  getTaskEfficiencyFactorAux h (h.tasks.length + 2) schema 1

/-- `_getOutputSizeCorrectionFactor`: first keyword of the configured table that
occurs in the task name wins, default factor 1. -/
def getOutputSizeCorrectionFactor (h : Handler) (task : String) : ℚ :=
  match h.outputSizeCorrection.find? (fun kv => strContains kv.1 task) with
  | some kv => kv.2
  | none => 1

/-- `_isBelowMinEventsPerLumi`. -/
def isBelowMinEventsPerLumi (h : Handler) (eventsPerLumi : ℚ) : Bool :=
  decide (eventsPerLumi < h.minEventsPerLumiOutput)

/-- `_getTaskMaxEventsByTime`: timeoutHours = 45.0, targetHours = 8.0, and
`int(targetHours * 3600)` = 28800.  TimePerEvent defaults to 0, in which case
the processing time is 0 and no bound is emitted. -/
def getTaskMaxEventsByTime (h : Handler) (schema : TaskSchema) (eventsPerLumi : ℚ) :
    Except Err (Option ℚ) :=
  match getTaskEfficiencyFactor h schema with
  | none => .error .recursionOverflow
  | some efficiencyFactor =>
    let eventsPerLumi := eventsPerLumi * efficiencyFactor
    let timePerEvent := schema.timePerEvent.getD 0
    let time := eventsPerLumi * timePerEvent
    if time > 45 * 3600 then
      .ok (some ((28800 : ℚ) / timePerEvent / efficiencyFactor))
    else
      .ok none

/-- `_getTaskMaxEventsBySize`.  The outer Option mirrors the source returning a
bare None (not a pair) when SizePerEvent is absent or zero; the zero-division
error mirrors `int(gbSpaceLimit / sizePerEvent)` when the scaled size per event
is zero. -/
def getTaskMaxEventsBySize (h : Handler) (schema : TaskSchema) (eventsPerLumi : ℚ) :
    Except Err (Option (Option ℚ × Option ℚ)) :=
  let gbSpaceLimit := h.gbSpaceLimit
  let sizePerEvent := schema.sizePerEvent.getD 0
  if sizePerEvent = 0 then .ok none
  else
    match getTaskEfficiencyFactor h schema with
    | none => .error .recursionOverflow
    | some efficiencyFactor =>
      let filterEfficiency := schema.filterEfficiency.getD 1
      let sizePerEvent := sizePerEvent * efficiencyFactor * filterEfficiency
      let eventsPerLumi := eventsPerLumi * efficiencyFactor
      let eventsPerJob := schema.events_per_job.getD 0
      if sizePerEvent = 0 then .error .zeroDivisionError
      else
        let maxEventsPerLumi : ℚ := (pyInt (gbSpaceLimit / sizePerEvent) : ℚ)
        let size := eventsPerLumi * sizePerEvent / 1024 ^ 2
        if size > gbSpaceLimit then
          .ok (some (some (maxEventsPerLumi / efficiencyFactor), none))
        else
          let outputSize := eventsPerJob * sizePerEvent / 1024 ^ 2
          if outputSize > gbSpaceLimit then
            .ok (some (some (maxEventsPerLumi / efficiencyFactor), some maxEventsPerLumi))
          else
            .ok (some (none, none))

/-- `_getTaskMaxEventsPerLumiAndJob`.  Python `filter(None, ...)` drops both the
None entries and zero bounds; unpacking the bare None returned by the size
computation raises a TypeError. -/
def getTaskMaxEventsPerLumiAndJob (h : Handler) (schema : TaskSchema) (eventsPerLumi : ℚ) :
    Except Err (List ℚ × Option ℚ) := do
  let maxEventsPerLumiByTime ← getTaskMaxEventsByTime h schema eventsPerLumi
  match ← getTaskMaxEventsBySize h schema eventsPerLumi with
  | none => .error .typeError
  | some (maxEventsPerLumiBySize, maxEventsPerJob) =>
    .ok (([maxEventsPerLumiByTime, maxEventsPerLumiBySize].filterMap id).filter (fun q => q != 0),
         maxEventsPerJob)

/-- Per-task record built by `_getTimeInfo`: time per event scaled by the filter
efficiency, and the core count (task-level Multicore with the chain-level value
as fallback; both may be absent, leaving None). -/
structure TimeInfo where
  timePerEvent : ℚ
  cores : Option ℚ
  deriving DecidableEq, Repr

/-- `_getTimeInfo`: a missing TimePerEvent makes the division `None / eff` raise
a TypeError; a zero FilterEfficiency raises a ZeroDivisionError. -/
def getTimeInfo (h : Handler) : Except Err (List TimeInfo) :=
  h.tasks.mapM (fun task => do
    match task.timePerEvent with
    | none => .error .typeError
    | some t =>
      let fe := task.filterEfficiency.getD 1
      if fe = 0 then .error .zeroDivisionError
      else .ok ⟨t / fe, task.multicore.or h.chainMulticore⟩)

/-- `_hasAcceptableEfficiency`: time-weighted CPU efficiency with per-task cores
capped at max_nCores_for_stepchain, compared to the configured threshold.
Python `min(None, maxCores)` raises a TypeError when a task has no core count;
the division raises when the total time times maxCores is zero. -/
def hasAcceptableEfficiency (h : Handler) : Except Err Bool := do
  let maxCores := h.maxNCoresForStepChain
  let time ← getTimeInfo h
  let totalTimePerEvent := (time.map (fun i => i.timePerEvent)).sum
  let efficiency ← time.foldlM
    (fun acc i =>
      match i.cores with
      | none => .error .typeError
      | some c => .ok (acc + i.timePerEvent * min c maxCores)) (0 : ℚ)
  if totalTimePerEvent ≠ 0 then
    if totalTimePerEvent * maxCores = 0 then .error .zeroDivisionError
    else .ok (decide (efficiency / (totalTimePerEvent * maxCores) >
      h.efficiencyThresholdForStepChain))
  else
    .ok false

/-- `_hasNonZeroEventStreams`: any task dict with EventStreams present and
non-zero (the `Task`-prefixed non-dict keys of the schema, such as TaskChain,
are skipped by the isinstance check and are not part of `tasks`). -/
def hasNonZeroEventStreams (h : Handler) : Bool :=
  h.tasks.any (fun t => t.eventStreams.getD 0 != 0)

/-- The joined processing string built in `isGoodToConvertToStepChain`. -/
def processingString (h : Handler) : String :=
  (h.processingStrings.map (fun kv => kv.1 ++ kv.2)).foldl (fun a b => a ++ b) ""

/-- `isGoodToConvertToStepChain` of the task-chain handler.  The result is the
conjunction of the structural criteria, evaluated with Python's short-circuit
order; an exception inside is swallowed by the handler (error result, the
caller sees None). -/
def isGoodToConvertToStepChain (h : Handler) (keywords : Option (List String)) :
    Except Err Bool :=
  if hasNonZeroEventStreams h then .ok false
  else
    let moreThanOneTask := decide (h.taskChain.getD 0 > 1)
    let tiers := h.outputDatasets.map lastComponent
    let allUniqueTiers := decide (tiers.dedup.length = tiers.length)
    let allSameArches := decide ((h.scramArch.map (fun x => strTake x 4)).dedup.length = 1)
    let allSameCores := decide (h.multicores.dedup.length = 1)
    let foundKeywords :=
      match keywords with
      | none => true
      | some [] => true
      | some kws => kws.any (fun kw => strContains kw (processingString h ++ h.wf))
    if moreThanOneTask && allUniqueTiers && allSameArches then do
      let coresOk ← if allSameCores then pure true else hasAcceptableEfficiency h
      .ok (coresOk && foundKeywords)
    else
      .ok false

/-- `isGoodToConvertToStepChain` of the step-chain handler: always False, the
conversion is supported only from TaskChain to StepChain. -/
def stepChainIsGoodToConvertToStepChain (_keywords : Option (List String)) : Bool :=
  false

/-- The loop state of `checkSplitting`: the accumulator variables of the single
pass, plus the caller's splitting list whose entries are mutated in place
(modified entries are recorded by index, since the Python list holds aliases). -/
structure CSState where
  hold : Bool
  modified : List ℕ
  eventsPerLumi : Option ℚ
  inputEventsPerLumi : Option ℚ
  maxEventsPerLumi : List ℚ
  smallLumi : Bool
  splittings : List Splitting
  deriving DecidableEq, Repr

/-- The initial loop state over a given splitting list. -/
def initCSState (splittings : List Splitting) : CSState :=
  { hold := false, modified := [], eventsPerLumi := none, inputEventsPerLumi := none,
    maxEventsPerLumi := [], smallLumi := false, splittings }

/-- The in-place write `splitting["splitParams"]["events_per_job"] = v`; raises
a KeyError when the entry has no splitParams dict. -/
def setEventsPerJob (s : Splitting) (v : ℚ) : Except Err Splitting :=
  match s.splitParams with
  | none => .error .keyError
  | some p => .ok { s with splitParams := some { p with events_per_job := some v } }

/-- The in-place write `splitting["splitParams"]["events_per_lumi"] = v`; raises
a KeyError when the entry has no splitParams dict. -/
def setEventsPerLumi (s : Splitting) (v : ℚ) : Except Err Splitting :=
  match s.splitParams with
  | none => .error .keyError
  | some p => .ok { s with splitParams := some { p with events_per_lumi := some v } }

/-- The per-job cap application inside the loop: when the cap is truthy, write
it into the entry's splitParams in place and record the entry as modified. -/
def applyPerJobCap (st : CSState) (i : ℕ) (splitting : Splitting) (cap : Option ℚ) :
    Except Err CSState :=
  if truthy cap then
    match setEventsPerJob splitting (cap.getD 0) with
    | .error e => .error e
    | .ok s' =>
      .ok { st with splittings := st.splittings.set i s', modified := st.modified ++ [i] }
  else
    .ok st

/-- The per-chain under-fill check inside the loop: evaluated only while no
under-fill has been seen, on chains with no primary input that are not
validation requests; the state's smallLumi is reassigned and hold is or-ed. -/
def smallLumiCheck (h : Handler) (schema : TaskSchema) (epl : ℚ) (st : CSState) : CSState :=
  if ¬ st.smallLumi ∧ h.primaries.isEmpty ∧ ¬ h.relVal then
    let effEventsPerLumi := min epl (minD st.maxEventsPerLumi epl)
    let effEventsPerLumi := effEventsPerLumi * schema.filterEfficiency.getD 1
    let smallLumi := isBelowMinEventsPerLumi h effEventsPerLumi
    { st with smallLumi, hold := st.hold || smallLumi }
  else
    st

/-- One iteration of the `checkSplitting` loop, on the entry at index `i` of the
current splitting list: resolve the task schema, scale its SizePerEvent by the
correction factor (KeyError when absent), refresh the observed and effective
events-per-lumi values, skip unboundable entries, run the bound calculator,
apply the per-job cap and the under-fill check. -/
def checkSplittingStep (h : Handler) (st : CSState) (i : ℕ) : Except Err CSState :=
  match st.splittings.get? i with
  | none => .error .indexError
  | some splitting =>
    let params := splitting.splitParams.getD {}
    let task := lastComponent splitting.taskName
    let schema := getTaskSchema h task
    match schema.sizePerEvent with
    | none => .error .keyError
    | some spe =>
      let schema := { schema with
        sizePerEvent := some (spe * getOutputSizeCorrectionFactor h task) }
      let inputEventsPerLumi :=
        match schema.inputDataset with
        | some ds =>
          if ds ≠ "" then h.getDatasetEventsPerLumi (schema.strGet ds)
          else st.inputEventsPerLumi
        | none => st.inputEventsPerLumi
      let eventsPerLumi := pyOr params.events_per_lumi (pyOr inputEventsPerLumi st.eventsPerLumi)
      let st1 := { st with eventsPerLumi, inputEventsPerLumi }
      if ¬ (truthy eventsPerLumi = true) ∨ params.events_per_job = none then
        .ok st1
      else
        match getTaskMaxEventsPerLumiAndJob h schema (eventsPerLumi.getD 0) with
        | .error e => .error e
        | .ok (maxTaskEventsPerLumi, maxTaskEventsPerJob) =>
          match applyPerJobCap
              { st1 with maxEventsPerLumi := st1.maxEventsPerLumi ++ maxTaskEventsPerLumi }
              i splitting maxTaskEventsPerJob with
          | .error e => .error e
          | .ok st2 => .ok (smallLumiCheck h schema (eventsPerLumi.getD 0) st2)

/-- The `checkSplitting` loop over the entry indices; the state at the moment of
an exception is retained (the caller's list keeps the in-place mutations made
before the failure). -/
def checkSplittingLoop (h : Handler) : List ℕ → CSState → CSState × Option Err
  | [], st => (st, none)
  | i :: rest, st =>
    match checkSplittingStep h st i with
    | .ok st' => checkSplittingLoop h rest st'
    | .error e => (st, some e)

/-- The branch of the after-loop phase of `checkSplitting` taken when there is
no observed input events per lumi: rewrite the first entry's events_per_lumi
down to the binding bound when it exceeds it. -/
def checkSplittingRoot (st : CSState) : CSState × Option Err :=
  match st.splittings.get? 0 with
  | none => (st, some .indexError)
  | some rootSplitting =>
    match (rootSplitting.splitParams.getD {}).events_per_lumi with
    | some r =>
      if r ≠ 0 ∧ minD st.maxEventsPerLumi 0 < r then
        match setEventsPerLumi rootSplitting (minD st.maxEventsPerLumi 0) with
        | .ok s' =>
          ({ st with splittings := st.splittings.set 0 s', modified := st.modified ++ [0] },
           none)
        | .error e => (st, some e)
      else (st, none)
    | none => (st, none)

/-- The after-loop phase of `checkSplitting`: hold when the binding bound is
below the observed input events per lumi; otherwise, with no observed input
value, rewrite the first entry's events_per_lumi down to the binding bound. -/
def checkSplittingPost (st : CSState) : CSState × Option Err :=
  if st.maxEventsPerLumi ≠ [] then
    match st.inputEventsPerLumi with
    | some v =>
      if v ≠ 0 then
        if minD st.maxEventsPerLumi 0 < v then ({ st with hold := true }, none)
        else (st, none)
      else
        checkSplittingRoot st
    | none => checkSplittingRoot st
  else
    (st, none)

deriving instance DecidableEq for Except

/-- The observable outcome of `checkSplitting`: the returned value (the pair of
hold flag and modified entries, or None when an exception was swallowed) and
the caller's splitting list after the call (the in-place mutations survive in
either case). -/
structure CheckSplittingResult where
  result : Except Err (Bool × List Splitting)
  splittings : List Splitting
  deriving DecidableEq, Repr

/-- `checkSplitting`: the single pass over the splitting list followed by the
after-loop phase; the returned modified entries are the final values of the
recorded entries (the Python list holds aliases of the mutated dicts). -/
def checkSplitting (h : Handler) (splittings : List Splitting) : CheckSplittingResult :=
  let (st, e) := checkSplittingLoop h (List.range splittings.length) (initCSState splittings)
  match e with
  | some err => ⟨.error err, st.splittings⟩
  | none =>
    let (st', e') := checkSplittingPost st
    match e' with
    | some err => ⟨.error err, st'.splittings⟩
    | none =>
      ⟨.ok (st'.hold, st'.modified.filterMap (fun i => st'.splittings.get? i)), st'.splittings⟩

/-! ### Heap model of `_getTaskSchema`

The value-level model above cannot distinguish a defensive copy from an alias,
so the copy semantics of `_getTaskSchema` (claim about `copy.deepcopy`) is
modelled once more over an explicit heap of dict cells: addresses are indices,
the chain schema holds the addresses of its task dicts, and returning a deep
copy is allocating a fresh cell holding the same value. -/

/-- A value stored in a task dict cell of the heap model. -/
inductive PyVal where
  | num (q : ℚ)
  | str (s : String)
  deriving DecidableEq, Repr

/-- A Python dict in the heap model: an insertion-ordered association list. -/
def Dict := List (String × PyVal)
  deriving DecidableEq, Repr

/-- Dict lookup `d.get(k)`. -/
def dictGet (d : Dict) (k : String) : Option PyVal :=
  (d.find? (fun kv => kv.1 == k)).map (fun kv => kv.2)

/-- Dict write `d[k] = v`: replaces the value of an existing key in place, else
appends the new key. -/
def dictSet (d : Dict) (k : String) (v : PyVal) : Dict :=
  match d with
  | [] => [(k, v)]
  | kv :: rest => if kv.1 = k then (k, v) :: rest else kv :: dictSet rest k v

/-- The heap: dict cells addressed by index. -/
structure Heap where
  cells : List Dict
  deriving DecidableEq, Repr

/-- Reading the dict at an address. -/
def Heap.read (h : Heap) (a : ℕ) : Dict :=
  (h.cells.get? a).getD []

/-- Allocating a new dict cell, returning the new heap and the fresh address. -/
def Heap.alloc (h : Heap) (d : Dict) : Heap × ℕ :=
  (⟨h.cells ++ [d]⟩, h.cells.length)

/-- Writing the dict at an address. -/
def Heap.write (h : Heap) (a : ℕ) (d : Dict) : Heap :=
  ⟨h.cells.set a d⟩

/-- `_getTaskSchema` in the heap model: scan the chain's task dicts in order for
one whose TaskName equals the requested name; on a match return a deep copy of
it (the task dicts are flat, so the deep copy allocates one fresh cell holding
the same value), otherwise return a fresh empty dict. -/
def getTaskSchemaHeap (h : Heap) (wfTasks : List ℕ) (task : String) : Heap × ℕ :=
  match wfTasks.find? (fun a => dictGet (h.read a) "TaskName" == some (.str task)) with
  | some a => h.alloc (h.read a)
  | none => h.alloc []

/-! ### Concrete fixtures used by the claim theorems and witnesses -/

/-- A handler whose configuration has GB_space_limit = 10 (the space limit of
the spec's size-bound example). -/
def sizeH : Handler := { gbSpaceLimit := 10 }

/-- A task with SizePerEvent = 2 (the kB figure of the size-bound example), no
filter efficiency and no input task, so both efficiency factors are 1. -/
def sizeTask : TaskSchema := { taskName := "T1", sizePerEvent := some 2 }

/-- Task A of the efficiency-propagation example: it reads B and filters it at
FilterEfficiency 0.4. -/
def taskA : TaskSchema := { taskName := "A", filterEfficiency := some (2/5), inputTask := some "B" }

/-- Task B of the efficiency-propagation example: it reads C and filters it at
FilterEfficiency 0.5. -/
def taskB : TaskSchema := { taskName := "B", filterEfficiency := some (1/2), inputTask := some "C" }

/-- Task C, the base of the efficiency-propagation example. -/
def taskC : TaskSchema := { taskName := "C" }

/-- The chain A→B→C of the efficiency-propagation example. -/
def effH : Handler := { tasks := [taskA, taskB, taskC] }

/-- A task whose SizePerEvent is present but zero. -/
def c3TaskZero : TaskSchema := { taskName := "TZ", sizePerEvent := some 0, timePerEvent := some 1 }

/-- A task with a normal SizePerEvent. -/
def c3TaskOk : TaskSchema := { taskName := "TOK", sizePerEvent := some 1 }

/-- A handler holding the two tasks above. -/
def c3H : Handler := { gbSpaceLimit := 10, tasks := [c3TaskZero, c3TaskOk] }

/-- A splitting entry naming a task that is not part of the chain schema. -/
def c3Entry : Splitting :=
  { taskName := "/wf/Missing",
    splitParams := some { events_per_job := some 100, events_per_lumi := some 100 } }

/-- A splitting entry for a valid task whose splitParams has no events_per_job. -/
def c3SkipEntry : Splitting :=
  { taskName := "/wf/TOK", splitParams := some { events_per_lumi := some 100 } }

/-- A task whose own schema carries an events_per_job large enough that its
per-job output size (23068672 kB = 22 GB) exceeds the 10 GB space limit. -/
def c4Task : TaskSchema := { taskName := "T1", sizePerEvent := some 1, events_per_job := some 23068672 }

/-- A handler with that task; the primary input list is non-empty so the
under-fill check never runs for these fixtures. -/
def c4H : Handler := { gbSpaceLimit := 10, tasks := [c4Task], primaries := ["prim"] }

/-- A splitting entry for the task above. -/
def c4E0 : Splitting :=
  { taskName := "T1", splitParams := some { events_per_job := some 100, events_per_lumi := some 100 } }

/-- A second splitting entry naming a task missing from the chain schema, so the
pass fails (KeyError) after mutating the first entry. -/
def c4E1 : Splitting :=
  { taskName := "Missing", splitParams := some { events_per_job := some 50 } }

/-- The first entry after one `checkSplitting` pass: events_per_job capped to 10
and events_per_lumi rewritten down to the binding bound 10. -/
def c5E' : Splitting :=
  { taskName := "T1", splitParams := some { events_per_job := some 10, events_per_lumi := some 10 } }

/-! ### Frame lemmas about the validator pass -/

/-- Agreement of two splitting entries up to the events_per_job value: the task
name and the events_per_lumi value coincide.  This is the only damage the loop
phase of a validator pass can do to the caller's entries. -/
def sameButEventsPerJob (a b : Splitting) : Prop :=
  a.taskName = b.taskName ∧
  match a.splitParams, b.splitParams with
  | none, none => True
  | some p, some q => p.events_per_lumi = q.events_per_lumi
  | _, _ => False

theorem sameButEventsPerJob_refl (a : Splitting) : sameButEventsPerJob a a := by
  cases a with
  | mk t p => cases p <;> simp [sameButEventsPerJob]

theorem forall₂_sameBut_refl (l : List Splitting) : List.Forall₂ sameButEventsPerJob l l := by
  induction l with
  | nil => exact List.Forall₂.nil
  | cons x xs ih => exact List.Forall₂.cons (sameButEventsPerJob_refl x) ih

theorem sameButEventsPerJob_trans {a b c : Splitting} (hab : sameButEventsPerJob a b)
    (hbc : sameButEventsPerJob b c) : sameButEventsPerJob a c := by
  obtain ⟨h1, h2⟩ := hab
  obtain ⟨h3, h4⟩ := hbc
  refine ⟨h1.trans h3, ?_⟩
  cases hpa : a.splitParams <;> cases hpb : b.splitParams <;> cases hpc : c.splitParams <;>
    simp_all

theorem forall₂_sameBut_trans {l₁ l₂ l₃ : List Splitting}
    (h12 : List.Forall₂ sameButEventsPerJob l₁ l₂)
    (h23 : List.Forall₂ sameButEventsPerJob l₂ l₃) :
    List.Forall₂ sameButEventsPerJob l₁ l₃ := by
  induction h12 generalizing l₃ with
  | nil => cases h23; exact List.Forall₂.nil
  | cons hab _ ih =>
    cases h23 with
    | cons hbc htail => exact List.Forall₂.cons (sameButEventsPerJob_trans hab hbc) (ih htail)

theorem forall₂_sameBut_set (l : List Splitting) (i : ℕ) (a b : Splitting)
    (hget : l.get? i = some a) (hab : sameButEventsPerJob a b) :
    List.Forall₂ sameButEventsPerJob l (l.set i b) := by
  induction l generalizing i with
  | nil => cases hget
  | cons x xs ih =>
    cases i with
    | zero =>
      cases hget
      exact List.Forall₂.cons hab (forall₂_sameBut_refl xs)
    | succ n =>
      exact List.Forall₂.cons (sameButEventsPerJob_refl x) (ih n hget)

theorem setEventsPerJob_sameBut (s : Splitting) (v : ℚ) (s' : Splitting)
    (hs : setEventsPerJob s v = .ok s') : sameButEventsPerJob s s' := by
  cases hp : s.splitParams with
  | none => rw [setEventsPerJob, hp] at hs; cases hs
  | some p =>
    rw [setEventsPerJob, hp] at hs
    cases hs
    exact ⟨rfl, by simp [hp]⟩

theorem applyPerJobCap_frame (st : CSState) (i : ℕ) (splitting : Splitting) (cap : Option ℚ)
    (st' : CSState) (hs : applyPerJobCap st i splitting cap = .ok st')
    (hget : st.splittings.get? i = some splitting) :
    List.Forall₂ sameButEventsPerJob st.splittings st'.splittings ∧
    st'.splittings.length = st.splittings.length ∧
    st'.hold = st.hold ∧
    ∃ extra, st'.modified = st.modified ++ extra ∧
      (extra = [] → st'.splittings = st.splittings) ∧
      ∀ j ∈ extra, j < st.splittings.length := by
  unfold applyPerJobCap at hs
  split at hs
  · cases hset : setEventsPerJob splitting (cap.getD 0) with
    | error e => rw [hset] at hs; cases hs
    | ok s' =>
      rw [hset] at hs
      cases hs
      obtain ⟨hlt, -⟩ := List.get?_eq_some.1 hget
      refine ⟨forall₂_sameBut_set _ i splitting s' hget (setEventsPerJob_sameBut _ _ _ hset),
        by simp, rfl, [i], rfl, by simp, ?_⟩
      intro j hj
      simp only [List.mem_singleton] at hj
      exact hj ▸ hlt
  · cases hs
    exact ⟨forall₂_sameBut_refl _, rfl, rfl, [], by simp, fun _ => rfl, by simp⟩

theorem smallLumiCheck_frame (h : Handler) (schema : TaskSchema) (epl : ℚ) (st : CSState) :
    (smallLumiCheck h schema epl st).splittings = st.splittings ∧
    (smallLumiCheck h schema epl st).modified = st.modified ∧
    (st.hold = true → (smallLumiCheck h schema epl st).hold = true) := by
  unfold smallLumiCheck
  split
  · exact ⟨rfl, rfl, fun hh => by simp [hh]⟩
  · exact ⟨rfl, rfl, fun hh => hh⟩

theorem checkSplittingStep_frame (h : Handler) (st : CSState) (i : ℕ) (st' : CSState)
    (hs : checkSplittingStep h st i = .ok st') :
    List.Forall₂ sameButEventsPerJob st.splittings st'.splittings ∧
    st'.splittings.length = st.splittings.length ∧
    (st.hold = true → st'.hold = true) ∧
    ∃ extra, st'.modified = st.modified ++ extra ∧
      (extra = [] → st'.splittings = st.splittings) ∧
      ∀ j ∈ extra, j < st.splittings.length := by
  unfold checkSplittingStep at hs
  split at hs
  · cases hs
  · rename_i splitting hget
    dsimp only at hs
    split at hs
    · cases hs
    · split at hs
      · cases hs
        exact ⟨forall₂_sameBut_refl _, rfl, fun hh => hh, [], by simp, fun _ => rfl, by simp⟩
      · split at hs
        · cases hs
        · split at hs
          · cases hs
          · rename_i st2 hcap
            cases hs
            obtain ⟨hf, hlen, hhold, extra, hmod, hemp, hbound⟩ :=
              applyPerJobCap_frame _ i splitting _ st2 hcap hget
            obtain ⟨hs1, hs2, hs3⟩ := smallLumiCheck_frame h _ _ st2
            refine ⟨hs1 ▸ hf, by rw [hs1]; exact hlen, fun hh => hs3 (hhold.trans hh), extra,
              by rw [hs2]; exact hmod, fun he => by rw [hs1]; exact hemp he, hbound⟩


theorem checkSplittingLoop_frame (h : Handler) (is : List ℕ) (st : CSState) :
    List.Forall₂ sameButEventsPerJob st.splittings (checkSplittingLoop h is st).1.splittings ∧
    (checkSplittingLoop h is st).1.splittings.length = st.splittings.length ∧
    (st.hold = true → (checkSplittingLoop h is st).1.hold = true) ∧
    ∃ extra, (checkSplittingLoop h is st).1.modified = st.modified ++ extra ∧
      (extra = [] → (checkSplittingLoop h is st).1.splittings = st.splittings) ∧
      ∀ j ∈ extra, j < st.splittings.length := by
  induction is generalizing st with
  | nil =>
    refine ⟨forall₂_sameBut_refl _, rfl, fun hh => hh, [], ?_, fun _ => rfl, by simp⟩
    simp [checkSplittingLoop]
  | cons i rest ih =>
    unfold checkSplittingLoop
    cases hstep : checkSplittingStep h st i with
    | error e =>
      simp only [hstep]
      refine ⟨forall₂_sameBut_refl _, ?_, fun hh => hh, [], ?_, ?_, ?_⟩ <;> simp
    | ok st1 =>
      simp only [hstep]
      obtain ⟨hf1, hlen1, hh1, e1, hm1, hemp1, hb1⟩ := checkSplittingStep_frame h st i st1 hstep
      obtain ⟨hf2, hlen2, hh2, e2, hm2, hemp2, hb2⟩ := ih st1
      refine ⟨forall₂_sameBut_trans hf1 hf2, hlen2.trans hlen1, fun hh => hh2 (hh1 hh),
        e1 ++ e2, by rw [hm2, hm1, List.append_assoc], ?_, ?_⟩
      · intro he
        obtain ⟨he1, he2⟩ := List.append_eq_nil.mp he
        rw [hemp2 he2, hemp1 he1]
      · intro j hj
        rcases List.mem_append.mp hj with hj1 | hj2
        · exact hb1 j hj1
        · exact hlen1 ▸ hb2 j hj2

theorem checkSplittingRoot_frame (st : CSState) :
    (st.hold = true → (checkSplittingRoot st).1.hold = true) ∧
    (checkSplittingRoot st).1.splittings.length = st.splittings.length ∧
    ∃ extra, (checkSplittingRoot st).1.modified = st.modified ++ extra ∧
      (extra = [] → (checkSplittingRoot st).1.splittings = st.splittings) ∧
      ∀ j ∈ extra, j < st.splittings.length := by
  unfold checkSplittingRoot
  split
  · exact ⟨fun hh => hh, rfl, [], by simp, fun _ => rfl, by simp⟩
  · rename_i rootSplitting hget
    split
    · split
      · split
        · rename_i s' hset
          refine ⟨fun hh => hh, by simp, [0], rfl, by simp, ?_⟩
          intro j hj
          simp only [List.mem_singleton] at hj
          subst hj
          obtain ⟨hlt, -⟩ := List.get?_eq_some.1 hget
          exact hlt
        · exact ⟨fun hh => hh, rfl, [], by simp, fun _ => rfl, by simp⟩
      · exact ⟨fun hh => hh, rfl, [], by simp, fun _ => rfl, by simp⟩
    · exact ⟨fun hh => hh, rfl, [], by simp, fun _ => rfl, by simp⟩

theorem checkSplittingRoot_error (st st' : CSState) (e : Err)
    (h : checkSplittingRoot st = (st', some e)) : st' = st := by
  unfold checkSplittingRoot at h
  split at h
  · simp only [Prod.mk.injEq] at h
    exact h.1.symm
  · split at h
    · split at h
      · split at h
        · simp only [Prod.mk.injEq] at h
          cases h.2
        · simp only [Prod.mk.injEq] at h
          exact h.1.symm
      · simp only [Prod.mk.injEq] at h
        cases h.2
    · simp only [Prod.mk.injEq] at h
      cases h.2

theorem checkSplittingPost_frame (st : CSState) :
    (st.hold = true → (checkSplittingPost st).1.hold = true) ∧
    (checkSplittingPost st).1.splittings.length = st.splittings.length ∧
    ∃ extra, (checkSplittingPost st).1.modified = st.modified ++ extra ∧
      (extra = [] → (checkSplittingPost st).1.splittings = st.splittings) ∧
      ∀ j ∈ extra, j < st.splittings.length := by
  unfold checkSplittingPost
  split
  · split
    · split
      · split
        · exact ⟨fun _ => rfl, rfl, [], by simp, fun _ => rfl, by simp⟩
        · exact ⟨fun hh => hh, rfl, [], by simp, fun _ => rfl, by simp⟩
      · exact checkSplittingRoot_frame st
    · exact checkSplittingRoot_frame st
  · exact ⟨fun hh => hh, rfl, [], by simp, fun _ => rfl, by simp⟩

theorem checkSplittingPost_error (st st' : CSState) (e : Err)
    (h : checkSplittingPost st = (st', some e)) : st' = st := by
  unfold checkSplittingPost at h
  split at h
  · split at h
    · split at h
      · split at h
        · simp only [Prod.mk.injEq] at h
          cases h.2
        · simp only [Prod.mk.injEq] at h
          cases h.2
      · exact checkSplittingRoot_error st st' e h
    · exact checkSplittingRoot_error st st' e h
  · simp only [Prod.mk.injEq] at h
    cases h.2

/-- C1: the claim says the size-derived maximum events-per-lumi equals
floor(space_limit_GB / effective_size_per_event) with binary 1024-based unit
conversion, i.e. floor(10·1024·1024/2) = 5242880 for SizePerEvent 2, limit 10,
efficiency 1.  The code computes `int(gbSpaceLimit / sizePerEvent)` with no
unit conversion and returns 5: the maximum consistent with the function's own
size check is 5242880 (5242880 events still pass the check, 5242881 trigger
it), yet the bound the code emits at a triggering input is 5. -/
theorem sizeBoundMissingUnitConversion :
    getTaskMaxEventsBySize sizeH sizeTask 8388608 = .ok (some (some 5, none)) ∧
    getTaskMaxEventsBySize sizeH sizeTask 5242880 = .ok (some (none, none)) ∧
    getTaskMaxEventsBySize sizeH sizeTask 5242881 = .ok (some (some 5, none)) ∧
    (5 : ℚ) ≠ 5242880 := by
  refine ⟨?_, ?_, ?_, by norm_num⟩ <;>
    norm_num [getTaskMaxEventsBySize, getTaskEfficiencyFactor, getTaskEfficiencyFactorAux,
      sizeH, sizeTask, pyInt]

/-- C2 counterexample: on the chain A→B→C with B filtering C at 0.5 and A
filtering B at 0.4, the propagator yields 0.5 for A, not the claimed 0.2 (the
task's own FilterEfficiency is never multiplied in). -/
theorem efficiencyExampleCounterexample :
    getTaskEfficiencyFactor effH taskA = some (1/2) ∧ ((1 : ℚ)/2 ≠ 1/5) :=
  ⟨by norm_num +decide [getTaskEfficiencyFactor, getTaskEfficiencyFactorAux, getTaskSchema,
      effH, taskA, taskB, taskC], by norm_num⟩

/-- C2 amended: the propagator returns the accumulator unchanged when no
InputTask is present, and otherwise multiplies the accumulator by the resolved
task's FilterEfficiency (default 1.0) and recurses on the resolved schema; on
the example chain the cumulative efficiency of A is therefore 0.5 (B's 0.5
times C's default 1.0), A's own 0.4 not included. -/
theorem efficiencyPropagator :
    (∀ (h : Handler) (schema : TaskSchema) (n : ℕ) (acc : ℚ), schema.inputTask = none →
      getTaskEfficiencyFactorAux h (n + 1) schema acc = some acc) ∧
    (∀ (h : Handler) (schema : TaskSchema) (n : ℕ) (acc : ℚ) (it : String),
      schema.inputTask = some it →
      getTaskEfficiencyFactorAux h (n + 1) schema acc =
        getTaskEfficiencyFactorAux h n (getTaskSchema h it)
          (acc * (getTaskSchema h it).filterEfficiency.getD 1)) ∧
    getTaskEfficiencyFactor effH taskA = some (1/2) := by
  refine ⟨fun h schema n acc hin => ?_, fun h schema n acc it hin => ?_,
    by norm_num +decide [getTaskEfficiencyFactor, getTaskEfficiencyFactorAux, getTaskSchema,
      effH, taskA, taskB, taskC]⟩
  · simp [getTaskEfficiencyFactorAux, hin]
  · simp [getTaskEfficiencyFactorAux, hin]

/-- C2 witness: the amended propagator equations applied at the example chain. -/
theorem efficiencyPropagator_witness :
    getTaskEfficiencyFactorAux effH 1 taskC 1 = some 1 ∧
    getTaskEfficiencyFactorAux effH 2 taskA 1 =
      getTaskEfficiencyFactorAux effH 1 (getTaskSchema effH "B")
        (1 * (getTaskSchema effH "B").filterEfficiency.getD 1) :=
  ⟨efficiencyPropagator.1 effH taskC 0 1 rfl,
   efficiencyPropagator.2.1 effH taskA 1 1 "B" rfl⟩

/-- C3: the claim says an absent or zero SizePerEvent yields "no size bound and
no events-per-job cap" with no numeric or type error, and that the validator
loop skips such entries.  In the code, `_getTaskMaxEventsBySize` returns a bare
None (not the declared pair), so the tuple unpacking in
`_getTaskMaxEventsPerLumiAndJob` raises a TypeError, and the in-place line
`schema["SizePerEvent"] *= factor` in `checkSplitting` raises a KeyError when
the key is absent, aborting the whole pass; only the events_per_job skip
behaves as claimed. -/
theorem missingSizePerEventRaises :
    getTaskMaxEventsPerLumiAndJob c3H c3TaskZero 100 = .error .typeError ∧
    (checkSplitting c3H [c3Entry]).result = .error .keyError ∧
    (checkSplitting c3H [c3SkipEntry]).result = .ok (false, []) := by
  refine ⟨?_, ?_, ?_⟩ <;>
    norm_num +decide [getTaskMaxEventsPerLumiAndJob, getTaskMaxEventsBySize,
      getTaskMaxEventsByTime, getTaskEfficiencyFactor, getTaskEfficiencyFactorAux,
      getTaskSchema, getOutputSizeCorrectionFactor, checkSplitting, checkSplittingLoop,
      checkSplittingStep, checkSplittingPost, checkSplittingRoot, initCSState, lastComponent,
      splitOnChar, pyOr, truthy, minD, isBelowMinEventsPerLumi, setEventsPerJob,
      setEventsPerLumi, pyInt, c3H, c3TaskZero, c3TaskOk, c3Entry, c3SkipEntry]

/-- C4 counterexample: on a two-entry list where the first entry's per-job cap
fires and the second entry's task is missing from the chain schema, the pass
fails (the KeyError is swallowed, no result is returned), yet the first entry's
splitParams has been mutated in place: the operation is not atomic. -/
theorem checkSplittingNotAtomic :
    (checkSplitting c4H [c4E0, c4E1]).result = .error .keyError ∧
    (checkSplitting c4H [c4E0, c4E1]).splittings ≠ [c4E0, c4E1] := by
  constructor <;>
    norm_num +decide [checkSplitting, checkSplittingLoop, checkSplittingStep,
      checkSplittingPost, checkSplittingRoot, initCSState, applyPerJobCap, smallLumiCheck,
      getTaskMaxEventsPerLumiAndJob, getTaskMaxEventsBySize, getTaskMaxEventsByTime,
      getTaskEfficiencyFactor, getTaskEfficiencyFactorAux, getTaskSchema,
      getOutputSizeCorrectionFactor, isBelowMinEventsPerLumi, setEventsPerJob, setEventsPerLumi,
      lastComponent, splitOnChar, pyOr, truthy, minD, pyInt, c4H, c4Task, c4E0, c4E1]

/-- C4 amended: when any internal lookup fails during `checkSplitting`, no
(hold, modifications) decision is produced (the exception is swallowed and the
caller receives None), but entries already mutated in place stay mutated: the
caller's list after a failed pass can differ from the input, though only in
splitParams.events_per_job values (task names and events_per_lumi survive). -/
theorem checkSplittingFailureYieldsNoDecision (h : Handler) (l : List Splitting) (e : Err)
    (herr : (checkSplitting h l).result = .error e) :
    List.Forall₂ sameButEventsPerJob l (checkSplitting h l).splittings := by
  unfold checkSplitting at herr ⊢
  rcases hlp : checkSplittingLoop h (List.range l.length) (initCSState l) with ⟨st, e?⟩
  obtain ⟨hf, -, -, -⟩ := checkSplittingLoop_frame h (List.range l.length) (initCSState l)
  rw [hlp] at hf
  cases e? with
  | some err =>
    simp only [hlp]
    exact hf
  | none =>
    rcases hpost : checkSplittingPost st with ⟨st', e?'⟩
    cases e?' with
    | some err =>
      simp only [hlp, hpost]
      rw [checkSplittingPost_error st st' err hpost]
      exact hf
    | none =>
      rw [hlp] at herr
      simp only [hpost] at herr
      cases herr

/-- C4 witness: the amended statement applied to the concrete failing chain. -/
theorem checkSplittingFailureYieldsNoDecision_witness :
    List.Forall₂ sameButEventsPerJob [c4E0, c4E1]
      (checkSplitting c4H [c4E0, c4E1]).splittings :=
  checkSplittingFailureYieldsNoDecision c4H [c4E0, c4E1] .keyError (by
    norm_num +decide [checkSplitting, checkSplittingLoop, checkSplittingStep,
      checkSplittingPost, checkSplittingRoot, initCSState, applyPerJobCap, smallLumiCheck,
      getTaskMaxEventsPerLumiAndJob, getTaskMaxEventsBySize, getTaskMaxEventsByTime,
      getTaskEfficiencyFactor, getTaskEfficiencyFactorAux, getTaskSchema,
      getOutputSizeCorrectionFactor, isBelowMinEventsPerLumi, setEventsPerJob, setEventsPerLumi,
      lastComponent, splitOnChar, pyOr, truthy, minD, pyInt, c4H, c4Task, c4E0, c4E1])

/-- C5 counterexample: a single-entry chain whose task schema carries a large
events_per_job.  The first pass returns hold = False and caps the entry's
events_per_job and events_per_lumi in place, but a second pass over the
modified list re-emits the per-job modification (the cap is recomputed from the
task schema's events_per_job, which the modification did not touch), so the
second modification list is not empty. -/
theorem validatorSecondRunStillModifies :
    (checkSplitting c4H [c4E0]).result = .ok (false, [c5E', c5E']) ∧
    (checkSplitting c4H [c4E0]).splittings = [c5E'] ∧
    (checkSplitting c4H [c5E']).result = .ok (false, [c5E']) ∧
    ([c5E'] : List Splitting) ≠ [] := by
  refine ⟨?_, ?_, ?_, by simp⟩ <;>
    norm_num +decide [checkSplitting, checkSplittingLoop, checkSplittingStep,
      checkSplittingPost, checkSplittingRoot, initCSState, applyPerJobCap, smallLumiCheck,
      getTaskMaxEventsPerLumiAndJob, getTaskMaxEventsBySize, getTaskMaxEventsByTime,
      getTaskEfficiencyFactor, getTaskEfficiencyFactorAux, getTaskSchema,
      getOutputSizeCorrectionFactor, isBelowMinEventsPerLumi, setEventsPerJob, setEventsPerLumi,
      lastComponent, splitOnChar, pyOr, truthy, minD, pyInt, c4H, c4Task, c4E0, c5E']

/-- C5 amended: idempotence holds for the chains the first pass left untouched:
whenever `checkSplitting` returns hold = False with an empty modification list,
the caller's entries are unchanged, and a second run on them returns the same
outcome.  (For chains the first pass did modify, a second pass may re-emit the
per-job modification, as the counterexample shows.) -/
theorem validatorIdempotentOnUnmodifiedChains (h : Handler) (l : List Splitting)
    (hok : (checkSplitting h l).result = .ok (false, [])) :
    (checkSplitting h l).splittings = l ∧
    checkSplitting h ((checkSplitting h l).splittings) = checkSplitting h l := by
  suffices hsp : (checkSplitting h l).splittings = l by exact ⟨hsp, by rw [hsp]⟩
  unfold checkSplitting at hok ⊢
  rcases hlp : checkSplittingLoop h (List.range l.length) (initCSState l) with ⟨st, e?⟩
  obtain ⟨-, hlen1, -, e1, hm1, hemp1, hb1⟩ :=
    checkSplittingLoop_frame h (List.range l.length) (initCSState l)
  rw [hlp] at hlen1 hm1 hemp1 hok
  dsimp only at hlen1 hm1 hemp1
  cases e? with
  | some err => exact Except.noConfusion hok
  | none =>
    dsimp only at hok ⊢
    rcases hpost : checkSplittingPost st with ⟨st', e?'⟩
    obtain ⟨-, hlen2, e2, hm2, hemp2, hb2⟩ := checkSplittingPost_frame st
    rw [hpost] at hlen2 hm2 hemp2 hok
    dsimp only at hlen2 hm2 hemp2 hok ⊢
    cases e?' with
    | some err => exact Except.noConfusion hok
    | none =>
      have hok' : (Except.ok (st'.hold,
          List.filterMap (fun i => st'.splittings.get? i) st'.modified) :
          Except Err (Bool × List Splitting)) = .ok (false, []) := hok
      have h12 := Except.ok.inj hok'
      have hfm : List.filterMap (fun i => st'.splittings.get? i) st'.modified = [] :=
        congrArg Prod.snd h12
      have hnil : ∀ j ∈ st'.modified, st'.splittings.get? j = none :=
        List.filterMap_eq_nil_iff.mp hfm
      have hmodnil : st'.modified = [] := by
        cases hmm : st'.modified with
        | nil => rfl
        | cons j rest =>
          exfalso
          have hj : j ∈ st'.modified := by rw [hmm]; exact List.mem_cons_self j rest
          have hjn := hnil j hj
          have hjlen : st'.splittings.length ≤ j := List.get?_eq_none.mp hjn
          have hj' : j ∈ st.modified ++ e2 := by rw [← hm2, hmm]; exact List.mem_cons_self j rest
          rcases List.mem_append.mp hj' with hj1 | hj2
          · have hj1' : j ∈ (initCSState l).modified ++ e1 := by rw [← hm1]; exact hj1
            rcases List.mem_append.mp hj1' with hj0 | hj1''
            · simp [initCSState] at hj0
            · have := hb1 j hj1''
              simp only [initCSState] at this
              have hlt : j < st'.splittings.length := by
                rw [hlen2, hlen1]
                simpa [initCSState] using this
              exact absurd hlt (not_lt.mpr hjlen)
          · have := hb2 j hj2
            have hlt : j < st'.splittings.length := by rw [hlen2]; exact this
            exact absurd hlt (not_lt.mpr hjlen)
      have he2 : e2 = [] := by
        have := hm2
        rw [hmodnil] at this
        exact (List.append_eq_nil.mp this.symm).2
      have hstmod : st.modified = [] := by
        have := hm2
        rw [hmodnil] at this
        exact (List.append_eq_nil.mp this.symm).1
      have he1 : e1 = [] := by
        have := hm1
        rw [hstmod] at this
        have := (List.append_eq_nil.mp this.symm).2
        exact this
      have hst : st.splittings = l := by
        have := hemp1 he1
        simpa [initCSState] using this
      have hst' : st'.splittings = st.splittings := hemp2 he2
      show st'.splittings = l
      rw [hst', hst]

/-- C5 witness: the amended idempotence applied to a concrete chain whose first
pass returns hold = False with no modifications. -/
theorem validatorIdempotentOnUnmodifiedChains_witness :
    (checkSplitting c3H [c3SkipEntry]).splittings = [c3SkipEntry] ∧
    checkSplitting c3H ((checkSplitting c3H [c3SkipEntry]).splittings) =
      checkSplitting c3H [c3SkipEntry] :=
  validatorIdempotentOnUnmodifiedChains c3H [c3SkipEntry] (by
    norm_num +decide [checkSplitting, checkSplittingLoop, checkSplittingStep,
      checkSplittingPost, checkSplittingRoot, initCSState, applyPerJobCap, smallLumiCheck,
      getTaskMaxEventsPerLumiAndJob, getTaskMaxEventsBySize, getTaskMaxEventsByTime,
      getTaskEfficiencyFactor, getTaskEfficiencyFactorAux, getTaskSchema,
      getOutputSizeCorrectionFactor, isBelowMinEventsPerLumi, setEventsPerJob, setEventsPerLumi,
      lastComponent, splitOnChar, pyOr, truthy, minD, pyInt, c3H, c3TaskZero, c3TaskOk,
      c3SkipEntry])

/-- C6: the hold flag is sticky within one validation pass: from any state with
hold already set, the rest of the loop keeps hold set, and so does the
after-loop phase, so the pass result carries hold = True; the loop only ever
or-s the flag and the after-loop phase only ever sets it. -/
theorem holdFlagIsSticky (h : Handler) (is : List ℕ) (st : CSState) (hh : st.hold = true) :
    (checkSplittingLoop h is st).1.hold = true ∧
    (checkSplittingPost (checkSplittingLoop h is st).1).1.hold = true := by
  obtain ⟨-, -, hhold, -⟩ := checkSplittingLoop_frame h is st
  have h1 := hhold hh
  obtain ⟨hp, -, -⟩ := checkSplittingPost_frame (checkSplittingLoop h is st).1
  exact ⟨h1, hp h1⟩

/-- A loop state with the hold flag already set. -/
def heldState : CSState := { initCSState [] with hold := true }

/-- C6 witness: stickiness applied to a concrete held state. -/
theorem holdFlagIsSticky_witness :
    (checkSplittingLoop {} [] heldState).1.hold = true ∧
    (checkSplittingPost (checkSplittingLoop {} [] heldState).1).1.hold = true :=
  holdFlagIsSticky {} [] heldState rfl

/-- A chain satisfying every conversion criterion: two tasks, distinct output
tiers, one architecture, one shared core count, no event streams. -/
def hC7 : Handler :=
  { tasks := [{ taskName := "A" }, { taskName := "B" }], taskChain := some 2,
    outputDatasets := ["/d/p/AOD", "/d/p/GEN-SIM"], scramArch := ["slc7_amd64_gcc820"],
    multicores := [4] }

/-- C7: the Chain-Conversion Advisor proposes conversion only when every
structural criterion holds: more than one task, all output data tiers unique,
one architecture family (first four characters), one shared core count or an
acceptable CPU efficiency, no non-zero EventStreams, and a keyword hit whenever
a non-empty keyword list is supplied; a chain with a duplicated tier therefore
never passes, and the step-chain handler always reports not eligible. -/
theorem conversionRequiresAllCriteria :
    (∀ (h : Handler) (kws : Option (List String)),
      isGoodToConvertToStepChain h kws = .ok true →
      h.taskChain.getD 0 > 1 ∧
      (h.outputDatasets.map lastComponent).dedup.length =
        (h.outputDatasets.map lastComponent).length ∧
      (h.scramArch.map (fun x => strTake x 4)).dedup.length = 1 ∧
      (h.multicores.dedup.length = 1 ∨ hasAcceptableEfficiency h = .ok true) ∧
      hasNonZeroEventStreams h = false ∧
      (∀ kw kws', kws = some (kw :: kws') →
        (kw :: kws').any (fun k => strContains k (processingString h ++ h.wf)) = true)) ∧
    (∀ kws, stepChainIsGoodToConvertToStepChain kws = false) := by
  refine ⟨fun h kws hgood => ?_, fun _ => rfl⟩
  unfold isGoodToConvertToStepChain at hgood
  split at hgood
  · exact Bool.noConfusion (Except.ok.inj hgood)
  · rename_i hstreams
    dsimp only at hgood
    split at hgood
    · rename_i hcond
      simp only [Bool.and_eq_true, decide_eq_true_eq] at hcond
      obtain ⟨⟨hmore, huniq⟩, harch⟩ := hcond
      split at hgood
      · rename_i hsame
        simp only [decide_eq_true_eq] at hsame
        have hinj := Except.ok.inj hgood
        refine ⟨hmore, huniq, harch, Or.inl hsame, by simpa using hstreams, ?_⟩
        intro kw kws' hk
        subst hk
        simpa using hinj
      · cases heff : hasAcceptableEfficiency h with
        | error e => rw [heff] at hgood; exact Except.noConfusion hgood
        | ok c =>
          rw [heff] at hgood
          have hinj := Except.ok.inj hgood
          simp only [Bool.and_eq_true] at hinj
          refine ⟨hmore, huniq, harch, Or.inr (congrArg Except.ok hinj.1),
            by simpa using hstreams, ?_⟩
          intro kw kws' hk
          subst hk
          simpa using hinj.2
    · exact Bool.noConfusion (Except.ok.inj hgood)

/-- C7 witness: the criteria extracted from a concrete eligible chain. -/
theorem conversionRequiresAllCriteria_witness :
    hC7.taskChain.getD 0 > 1 ∧
    (hC7.outputDatasets.map lastComponent).dedup.length =
      (hC7.outputDatasets.map lastComponent).length ∧
    (hC7.scramArch.map (fun x => strTake x 4)).dedup.length = 1 ∧
    (hC7.multicores.dedup.length = 1 ∨ hasAcceptableEfficiency hC7 = .ok true) ∧
    hasNonZeroEventStreams hC7 = false ∧
    (∀ kw kws', (none : Option (List String)) = some (kw :: kws') →
      (kw :: kws').any (fun k => strContains k (processingString hC7 ++ hC7.wf)) = true) :=
  conversionRequiresAllCriteria.1 hC7 none (by
    norm_num +decide [isGoodToConvertToStepChain, hasNonZeroEventStreams, hC7, lastComponent,
      splitOnChar, strTake, processingString, strContains, containsChars, leads])

/-- Order on optional events-per-lumi bounds where an absent bound means no
constraint at all (greater than any finite bound). -/
def obLE : Option ℚ → Option ℚ → Prop
  | _, none => True
  | none, some _ => False
  | some a, some b => a ≤ b

theorem getTaskEfficiencyFactorAux_timePerEvent (h : Handler) (n : ℕ) (schema : TaskSchema)
    (t : Option ℚ) (acc : ℚ) :
    getTaskEfficiencyFactorAux h (n + 1) { schema with timePerEvent := t } acc =
      getTaskEfficiencyFactorAux h (n + 1) schema acc := by
  cases hin : schema.inputTask <;> simp [getTaskEfficiencyFactorAux, hin]

theorem getTaskEfficiencyFactor_timePerEvent (h : Handler) (schema : TaskSchema)
    (t : Option ℚ) :
    getTaskEfficiencyFactor h { schema with timePerEvent := t } =
      getTaskEfficiencyFactor h schema :=
  getTaskEfficiencyFactorAux_timePerEvent h (h.tasks.length + 1) schema t 1

/-- C8: the time-derived bound is antitone in TimePerEvent: with all other
inputs fixed (and the realistic signs: non-negative events per lumi and time
per event, positive efficiency factor), raising TimePerEvent from t1 to t2
never raises the emitted bound, where an absent bound counts as no
constraint. -/
theorem timeBoundAntitone (h : Handler) (schema : TaskSchema) (epl t1 t2 eff : ℚ)
    (b1 b2 : Option ℚ)
    (heff : getTaskEfficiencyFactor h schema = some eff)
    (heffpos : 0 < eff) (hepl : 0 ≤ epl) (ht1 : 0 ≤ t1) (h12 : t1 ≤ t2)
    (hb1 : getTaskMaxEventsByTime h { schema with timePerEvent := some t1 } epl = .ok b1)
    (hb2 : getTaskMaxEventsByTime h { schema with timePerEvent := some t2 } epl = .ok b2) :
    obLE b2 b1 := by
  unfold getTaskMaxEventsByTime at hb1 hb2
  rw [getTaskEfficiencyFactor_timePerEvent, heff] at hb1 hb2
  dsimp only at hb1 hb2
  simp only [Option.getD_some] at hb1 hb2
  split at hb2
  · rename_i hcond2
    cases hb2
    split at hb1
    · rename_i hcond1
      cases hb1
      show (28800 : ℚ) / t2 / eff ≤ 28800 / t1 / eff
      have ht1pos : 0 < t1 := by nlinarith [mul_nonneg hepl heffpos.le]
      have ht2pos : 0 < t2 := lt_of_lt_of_le ht1pos h12
      gcongr
    · cases hb1
      trivial
  · rename_i hcond2
    cases hb2
    split at hb1
    · rename_i hcond1
      exfalso
      have hmul : epl * eff * t1 ≤ epl * eff * t2 :=
        mul_le_mul_of_nonneg_left h12 (mul_nonneg hepl heffpos.le)
      exact hcond2 (lt_of_lt_of_le hcond1 hmul)
    · cases hb1
      trivial

/-- C8 witness: the antitone bound at the spec's example input, TimePerEvent 5
against 6 seconds with 40000 events per lumi and efficiency 1. -/
theorem timeBoundAntitone_witness : obLE (some ((28800 : ℚ) / 6 / 1)) (some ((28800 : ℚ) / 5 / 1)) :=
  timeBoundAntitone {} {} 40000 5 6 1 (some ((28800 : ℚ) / 5 / 1)) (some ((28800 : ℚ) / 6 / 1))
    (by norm_num [getTaskEfficiencyFactor, getTaskEfficiencyFactorAux])
    (by norm_num) (by norm_num) (by norm_num) (by norm_num)
    (by norm_num [getTaskMaxEventsByTime, getTaskEfficiencyFactor, getTaskEfficiencyFactorAux])
    (by norm_num [getTaskMaxEventsByTime, getTaskEfficiencyFactor, getTaskEfficiencyFactorAux])

theorem getTaskMaxEventsBySize_noJob (h : Handler) (schema : TaskSchema) (epl : ℚ)
    (pair : Option ℚ × Option ℚ) (hnone : schema.events_per_job = none)
    (hlim : 0 ≤ h.gbSpaceLimit)
    (hcalc : getTaskMaxEventsBySize h schema epl = .ok (some pair)) : pair.2 = none := by
  simp only [getTaskMaxEventsBySize] at hcalc
  split at hcalc
  · exact Option.noConfusion (Except.ok.inj hcalc)
  · split at hcalc
    · exact Except.noConfusion hcalc
    · split at hcalc
      · exact Except.noConfusion hcalc
      · split at hcalc
        · have hp := Option.some.inj (Except.ok.inj hcalc)
          rw [← hp]
        · split at hcalc
          · rename_i hcond
            exfalso
            rw [hnone] at hcond
            simp only [Option.getD_none, zero_mul, zero_div] at hcond
            linarith
          · have hp := Option.some.inj (Except.ok.inj hcalc)
            rw [← hp]

theorem getTaskMaxEventsPerLumiAndJob_noJob (h : Handler) (schema : TaskSchema) (epl : ℚ)
    (bounds : List ℚ) (cap : Option ℚ) (hnone : schema.events_per_job = none)
    (hlim : 0 ≤ h.gbSpaceLimit)
    (hcalc : getTaskMaxEventsPerLumiAndJob h schema epl = .ok (bounds, cap)) : cap = none := by
  unfold getTaskMaxEventsPerLumiAndJob at hcalc
  cases htime : getTaskMaxEventsByTime h schema epl with
  | error e => rw [htime] at hcalc; exact Except.noConfusion hcalc
  | ok bt =>
    rw [htime] at hcalc
    cases hsize : getTaskMaxEventsBySize h schema epl with
    | error e =>
      rw [hsize] at hcalc
      exact Except.noConfusion hcalc
    | ok r =>
      rw [hsize] at hcalc
      cases r with
      | none => exact Except.noConfusion hcalc
      | some pair =>
        obtain ⟨bs, cp⟩ := pair
        have := Except.ok.inj hcalc
        have hcp : cap = cp := (congrArg Prod.snd this).symm
        rw [hcp]
        exact getTaskMaxEventsBySize_noJob h schema epl (bs, cp) hnone hlim hsize

/-- C9: in the size-bound calculation the events-per-job figure is read from
the task schema (key events_per_job, default 0), not from the splitting entry's
splitParams: when the schema has no events_per_job key (and the space limit is
non-negative), the calculator never emits an events-per-job cap (the second
component of every returned pair is None), and one loop iteration of the
validator leaves the splitting list and the modified-entry record unchanged no
matter what events_per_job value the entry's own splitParams carries. -/
theorem perJobCapReadFromSchemaOnly :
    (∀ (h : Handler) (schema : TaskSchema) (epl : ℚ) (pair : Option ℚ × Option ℚ),
      schema.events_per_job = none → 0 ≤ h.gbSpaceLimit →
      getTaskMaxEventsBySize h schema epl = .ok (some pair) → pair.2 = none) ∧
    (∀ (h : Handler) (st : CSState) (i : ℕ) (entry : Splitting) (st' : CSState),
      st.splittings.get? i = some entry →
      (getTaskSchema h (lastComponent entry.taskName)).events_per_job = none →
      0 ≤ h.gbSpaceLimit →
      checkSplittingStep h st i = .ok st' →
      st'.splittings = st.splittings ∧ st'.modified = st.modified) := by
  constructor
  · exact fun h schema epl pair hnone hlim hcalc =>
      getTaskMaxEventsBySize_noJob h schema epl pair hnone hlim hcalc
  · intro h st i entry st' hget hnone hlim hstep
    simp only [checkSplittingStep] at hstep
    split at hstep
    · exact Except.noConfusion hstep
    · rename_i splitting hget'
      have hentry : splitting = entry := Option.some.inj (hget'.symm.trans hget)
      subst hentry
      split at hstep
      · exact Except.noConfusion hstep
      · rename_i spe hspe
        split at hstep
        · cases hstep
          exact ⟨rfl, rfl⟩
        · split at hstep
          · exact Except.noConfusion hstep
          · rename_i bounds cap hcalc
            have hcap : cap = none := by
              refine getTaskMaxEventsPerLumiAndJob_noJob h _ _ bounds cap ?_ hlim hcalc
              exact hnone
            subst hcap
            split at hstep
            · rename_i e hcapstep
              rw [applyPerJobCap] at hcapstep
              simp [truthy] at hcapstep
            · rename_i st2 hcapstep
              rw [applyPerJobCap] at hcapstep
              simp only [truthy, Bool.false_eq_true, if_false] at hcapstep
              have hst2 := Except.ok.inj hcapstep
              cases hstep
              obtain ⟨hs1, hs2, -⟩ := smallLumiCheck_frame h _ _ st2
              rw [hs1, hs2, ← hst2]
              exact ⟨rfl, rfl⟩

/-- A splitting entry whose splitParams carries a large events_per_job for a
task whose schema has no events_per_job key. -/
def c9Entry : Splitting :=
  { taskName := "TOK",
    splitParams := some { events_per_job := some 1000000, events_per_lumi := some 100 } }

/-- The loop state after one iteration on that entry: only the carried
events-per-lumi value changes. -/
def c9State : CSState := { initCSState [c9Entry] with eventsPerLumi := some 100 }

/-- C9 witness: one loop iteration on a concrete entry with a large
splitParams events_per_job leaves the splitting list and the modified record
unchanged, because the task schema has no events_per_job key. -/
theorem perJobCapReadFromSchemaOnly_witness :
    c9State.splittings = (initCSState [c9Entry]).splittings ∧
    c9State.modified = (initCSState [c9Entry]).modified :=
  perJobCapReadFromSchemaOnly.2 c3H (initCSState [c9Entry]) 0 c9Entry c9State rfl
    (by norm_num +decide [getTaskSchema, c3H, c3TaskZero, c3TaskOk, lastComponent, splitOnChar])
    (by norm_num [c3H])
    (by norm_num +decide [checkSplittingStep, applyPerJobCap, smallLumiCheck,
      getTaskMaxEventsPerLumiAndJob, getTaskMaxEventsBySize, getTaskMaxEventsByTime,
      getTaskEfficiencyFactor, getTaskEfficiencyFactorAux, getTaskSchema,
      getOutputSizeCorrectionFactor, isBelowMinEventsPerLumi, initCSState, lastComponent,
      splitOnChar, pyOr, truthy, minD, pyInt, c3H, c3TaskZero, c3TaskOk, c9Entry, c9State])

/-- C10: the Chain Schema Accessor returns an independent copy: when some chain
task dict carries the requested TaskName, the returned address holds a dict
equal to the first such task dict but freshly allocated, so any subsequent
overwrite through the returned address leaves every chain task dict unchanged;
when no task matches, the returned address holds an empty mapping (with the
same frame guarantee, covered by the same write quantification). -/
theorem taskSchemaAccessorDefensiveCopy (heap : Heap) (wfTasks : List ℕ) (task : String)
    (hvalid : ∀ a ∈ wfTasks, a < heap.cells.length) :
    ((∃ a₀, wfTasks.find?
        (fun a => dictGet (heap.read a) "TaskName" == some (.str task)) = some a₀ ∧
        (getTaskSchemaHeap heap wfTasks task).1.read (getTaskSchemaHeap heap wfTasks task).2 =
          heap.read a₀) ∨
      (wfTasks.find?
        (fun a => dictGet (heap.read a) "TaskName" == some (.str task)) = none ∧
        (getTaskSchemaHeap heap wfTasks task).1.read (getTaskSchemaHeap heap wfTasks task).2 =
          [])) ∧
    (∀ (d : Dict) (a : ℕ), a ∈ wfTasks →
      ((getTaskSchemaHeap heap wfTasks task).1.write
          (getTaskSchemaHeap heap wfTasks task).2 d).read a = heap.read a) := by
  have hfresh : ∀ (v d : Dict) (a : ℕ), a ∈ wfTasks →
      Heap.read (Heap.write ⟨heap.cells ++ [v]⟩ heap.cells.length d) a = heap.read a := by
    intro v d a ha
    have hlt := hvalid a ha
    show (((heap.cells ++ [v]).set heap.cells.length d).get? a).getD [] =
      (heap.cells.get? a).getD []
    rw [List.get?_set_ne _ _ (Nat.ne_of_gt hlt), List.get?_append hlt]
  have hreadnew : ∀ v : Dict, Heap.read ⟨heap.cells ++ [v]⟩ heap.cells.length = v := by
    intro v
    show ((heap.cells ++ [v]).get? heap.cells.length).getD [] = v
    rw [List.get?_concat_length]
    rfl
  unfold getTaskSchemaHeap
  cases hfind : wfTasks.find?
      (fun a => dictGet (heap.read a) "TaskName" == some (.str task)) with
  | some a₀ =>
    exact ⟨Or.inl ⟨a₀, rfl, hreadnew (heap.read a₀)⟩,
      fun d a ha => hfresh (heap.read a₀) d a ha⟩
  | none =>
    exact ⟨Or.inr ⟨rfl, hreadnew []⟩, fun d a ha => hfresh [] d a ha⟩

/-- A concrete two-task heap for the accessor witness. -/
def c10Heap : Heap :=
  ⟨[[("TaskName", .str "T1"), ("SizePerEvent", .num 2)], [("TaskName", .str "T2")]]⟩

/-- C10 witness: the defensive-copy properties at a concrete heap, chain and
task name. -/
theorem taskSchemaAccessorDefensiveCopy_witness :
    ((∃ a₀, [0, 1].find?
        (fun a => dictGet (c10Heap.read a) "TaskName" == some (.str "T2")) = some a₀ ∧
        (getTaskSchemaHeap c10Heap [0, 1] "T2").1.read
          (getTaskSchemaHeap c10Heap [0, 1] "T2").2 = c10Heap.read a₀) ∨
      ([0, 1].find?
        (fun a => dictGet (c10Heap.read a) "TaskName" == some (.str "T2")) = none ∧
        (getTaskSchemaHeap c10Heap [0, 1] "T2").1.read
          (getTaskSchemaHeap c10Heap [0, 1] "T2").2 = [])) ∧
    (∀ (d : Dict) (a : ℕ), a ∈ [0, 1] →
      ((getTaskSchemaHeap c10Heap [0, 1] "T2").1.write
          (getTaskSchemaHeap c10Heap [0, 1] "T2").2 d).read a = c10Heap.read a) :=
  taskSchemaAccessorDefensiveCopy c10Heap [0, 1] "T2" (by decide)

end WmAgent
